import Mathlib

/-!
# Verification of the self-healing API gateway core

Shallow embedding of the drift-detection-and-healing pipeline:

* `app/healer/schema_healer.py` — `SchemaHealer.analyze_and_heal`,
  `SchemaHealer.apply_mapping`, `SchemaHealer._apply_transform`;
* `app/healer/schema_registry.py` — `SchemaRegistry.get_schema`,
  `SchemaRegistry._matches_pattern`;
* `app/healer/agent_stream.py` — `AgentStreamManager.emit`,
  `AgentStreamManager.approve_pending`;
* `app/database/redis_client.py` — `RedisClient.get_mapping`, `set_mapping`;
* `app/database/mongodb_client.py` — `MongoDBClient.get_healing_stats`;
* `app/proxy/proxy_service.py` — the cache-consultation stage of
  `ProxyService.proxy_request`.

Python floats are modelled as rationals (`Rat`); JSON payloads as an
insertion-ordered association list mirroring `dict` semantics; awaited
external effects (LLM call, cache writes, event log appends) are modelled
as explicit data in the result of the pipeline function.
-/

namespace SelfHealing

/-! ## JSON-ish values and Python `dict` semantics -/

/-- A JSON-like runtime value as handled by the gateway.  Python floats are
modelled as rationals; `datetime` results of `parse_date` are kept as a
tagged ISO string. -/
inductive Value where
  | vnull : Value
  | vint : Int → Value
  | vfloat : Rat → Value
  | vstr : String → Value
  | vbool : Bool → Value
  | vdate : String → Value
  | vlist : List Value → Value
  | vobj : List (String × Value) → Value

/-- A JSON object: insertion-ordered key/value pairs, as a Python `dict`. -/
abbrev Obj := List (String × Value)

/-- `k in d` / `d[k]` on a Python dict (first binding wins; a dict built
through normal assignment has unique keys). -/
def lookupKey (d : Obj) (k : String) : Option Value :=
  match d with
  | [] => none
  | (k', v) :: rest => if k' = k then some v else lookupKey rest k

/-- `d[k] = v` on a Python dict: updates the existing binding in place
(keeping its position) or appends a new one. -/
def setKey (d : Obj) (k : String) (v : Value) : Obj :=
  match d with
  | [] => [(k, v)]
  | (k', v') :: rest =>
    if k' = k then (k', v) :: rest else (k', v') :: setKey rest k v

theorem lookupKey_setKey (d : Obj) (k k' : String) (v : Value) :
    lookupKey (setKey d k v) k' = if k = k' then some v else lookupKey d k' := by
  induction d with
  | nil =>
    by_cases h : k = k' <;> simp [setKey, lookupKey, h]
  | cons p rest ih =>
    obtain ⟨k₀, v₀⟩ := p
    by_cases h₀ : k₀ = k
    · subst h₀
      by_cases h : k₀ = k' <;> simp [setKey, lookupKey, h]
    · simp only [setKey, if_neg h₀, lookupKey]
      by_cases h : k₀ = k'
      · subst h
        have : ¬ k = k₀ := fun hc => h₀ hc.symm
        simp [this]
      · simp [h, ih]

/-! ## Transforms (`SchemaHealer._apply_transform`) -/

/-- Python truthiness of a value (`if x:`). -/
def pyTruthy : Value → Bool
  | .vnull => false
  | .vint n => n ≠ 0
  | .vfloat q => q ≠ 0
  | .vstr s => s ≠ ""
  | .vbool b => b
  | .vdate _ => true
  | .vlist l => ¬ l.isEmpty
  | .vobj l => ¬ l.isEmpty

/-- Python `str(x)` rendering, as far as the gateway's values need it. -/
def pyStr : Value → String
  | .vnull => "None"
  | .vint n => toString n
  | .vfloat q => toString q.num ++ "/" ++ toString q.den
  | .vstr s => s
  | .vbool b => if b then "True" else "False"
  | .vdate s => s
  | .vlist _ => "[...]"
  | .vobj _ => "\x7b...\x7d"

/-- The numeric value of a digit list (only meaningful under an
all-digits guard). -/
def natOfDigits (cs : List Char) : Nat :=
  cs.foldl (fun n c => 10 * n + (c.toNat - 48)) 0

/-- Split a character list on a separator character, Python
`str.split(sep)` style (`"".split(sep) == [""]`). -/
def splitOnChar (sep : Char) : List Char → List (List Char)
  | [] => [[]]
  | c :: rest =>
    if c = sep then [] :: splitOnChar sep rest
    else
      match splitOnChar sep rest with
      | [] => [[c]]
      | seg :: segs => (c :: seg) :: segs

/-- Parse an optionally signed digit list the way Python `int(str)` does;
`none` models a raised `ValueError`. -/
def pyParseIntChars (cs : List Char) : Option Int :=
  match cs with
  | '-' :: ds =>
    if ¬ ds.isEmpty ∧ ds.all Char.isDigit then some (-(natOfDigits ds : Int)) else none
  | '+' :: ds =>
    if ¬ ds.isEmpty ∧ ds.all Char.isDigit then some ((natOfDigits ds : Int)) else none
  | ds =>
    if ¬ ds.isEmpty ∧ ds.all Char.isDigit then some ((natOfDigits ds : Int)) else none

/-- Parse a decimal integer string the way Python `int(str)` does (an
optional sign followed by digits); `none` models a raised `ValueError`. -/
def pyParseInt (s : String) : Option Int := pyParseIntChars s.toList

/-- Parse a decimal string the way Python `float(str)` does, restricted to
`[sign]digits[.digits]` forms; `none` models a raised `ValueError`. -/
def pyParseFloat (s : String) : Option Rat :=
  match splitOnChar '.' s.toList with
  | [w] => (pyParseIntChars w).map fun n => (n : Rat)
  | [w, f] =>
    let neg : Bool := w.head? = some '-'
    let wd := if w.head? = some '-' ∨ w.head? = some '+' then w.tail else w
    if (wd.isEmpty ∧ f.isEmpty) ∨ ¬ wd.all Char.isDigit ∨ ¬ f.all Char.isDigit then
      none
    else
      let mag : Rat := (natOfDigits wd : Rat) + (natOfDigits f : Rat) / (10 : Rat) ^ f.length
      some (if neg then -mag else mag)
  | _ => none

/-- A crude recogniser for strings `datetime.fromisoformat` accepts: a
`YYYY-MM-DD` date, optionally followed by a time part.  `false` models a
raised `ValueError`. -/
def isIsoDate (s : String) : Bool :=
  match s.toList with
  | y₁ :: y₂ :: y₃ :: y₄ :: '-' :: m₁ :: m₂ :: '-' :: d₁ :: d₂ :: rest =>
    [y₁, y₂, y₃, y₄, m₁, m₂, d₁, d₂].all Char.isDigit &&
      (rest.isEmpty || rest.head? = some 'T' || rest.head? = some ' ')
  | _ => false

/-- `lambda x: int(x) if x is not None else None`; `none` models a raised
`ValueError`/`TypeError`. -/
def toIntFn : Value → Option Value
  | .vnull => some .vnull
  | .vint n => some (.vint n)
  | .vbool b => some (.vint (if b then 1 else 0))
  | .vfloat q => some (.vint (q.num / (q.den : Int)))
  | .vstr s => (pyParseInt s).map .vint
  | _ => none

/-- `lambda x: str(x) if x is not None else None` (never raises). -/
def toStrFn : Value → Option Value
  | .vnull => some .vnull
  | v => some (.vstr (pyStr v))

/-- `lambda x: float(x) if x is not None else None`. -/
def toFloatFn : Value → Option Value
  | .vnull => some .vnull
  | .vint n => some (.vfloat (n : Rat))
  | .vfloat q => some (.vfloat q)
  | .vbool b => some (.vfloat (if b then 1 else 0))
  | .vstr s => (pyParseFloat s).map .vfloat
  | _ => none

/-- `lambda x: bool(x) if x is not None else None` (never raises). -/
def toBoolFn : Value → Option Value
  | .vnull => some .vnull
  | v => some (.vbool (pyTruthy v))

/-- `lambda x: datetime.fromisoformat(x) if x else None`: a falsy argument
yields `None`; a non-string truthy argument raises `TypeError`. -/
def parseDateFn : Value → Option Value
  | .vstr s =>
    if s = "" then some .vnull
    else if isIsoDate s then some (.vdate s) else none
  | v => if pyTruthy v then none else some .vnull

/-- The `transforms` dispatch dict of `_apply_transform`: name → partial
function (`none` result models the raised `ValueError`/`TypeError`). -/
def transformFn : String → Option (Value → Option Value)
  | "to_int" => some toIntFn
  | "to_str" => some toStrFn
  | "to_float" => some toFloatFn
  | "to_bool" => some toBoolFn
  | "parse_date" => some parseDateFn
  | _ => none

/-- `SchemaHealer._apply_transform`: an unknown transform name returns the
value unchanged; a known transform that raises is caught and the original
value is returned. -/
def apply_transform (value : Value) (transform : String) : Value :=
  match transformFn transform with
  | some f => (f value).getD value
  | none => value

/-! ## `FieldMapping`, `SchemaMapping`, `SchemaHealer.apply_mapping` -/

/-- `app/models.py` `FieldMapping`. -/
structure FieldMapping where
  source_field : String
  target_field : String
  transform : Option String
  confidence : Rat
deriving DecidableEq, Repr

/-- `app/models.py` `SchemaMapping` (the `created_at` timestamp is kept as
an abstract tick). -/
structure SchemaMapping where
  endpoint : String
  version : Nat := 1
  field_mappings : List FieldMapping
  created_at : Nat := 0
  created_by : String := "auto"
  llm_model : Option String := none
deriving DecidableEq, Repr

/-- The per-field body of the `apply_mapping` loop once the source field
was found: apply the (truthy) transform if present. -/
def mappedValue (fm : FieldMapping) (value : Value) : Value :=
  match fm.transform with
  | some t => if t = "" then value else apply_transform value t
  | none => value

/-- `SchemaHealer.apply_mapping`: start from a shallow copy of `data`; for
each field mapping whose `source_field` is present in the *original*
`data`, read the value, transform it if a transform is set (Python checks
truthiness, so the empty string counts as no transform), and write it
under `target_field`. -/
def apply_mapping (data : Obj) (mapping : SchemaMapping) : Obj :=
  mapping.field_mappings.foldl
    (fun result fm =>
      match lookupKey data fm.source_field with
      | none => result
      | some value => setKey result fm.target_field (mappedValue fm value))
    data

/-- The last field mapping of `fms` that actually writes to key `k` when
applied to `data`: its target is `k` and its source is present. -/
def lastWrite (data : Obj) (fms : List FieldMapping) (k : String) :
    Option FieldMapping :=
  match fms with
  | [] => none
  | fm :: rest =>
    match lastWrite data rest k with
    | some fm' => some fm'
    | none =>
      if fm.target_field = k ∧ (lookupKey data fm.source_field).isSome
      then some fm else none

theorem lookup_foldl_apply (data : Obj) (fms : List FieldMapping)
    (r : Obj) (k : String) :
    lookupKey (fms.foldl
      (fun result fm =>
        match lookupKey data fm.source_field with
        | none => result
        | some value => setKey result fm.target_field (mappedValue fm value))
      r) k =
    (match lastWrite data fms k with
     | some fm => some (mappedValue fm ((lookupKey data fm.source_field).getD .vnull))
     | none => lookupKey r k) := by
  induction fms generalizing r with
  | nil => simp [lastWrite]
  | cons fm rest ih =>
    simp only [List.foldl_cons, lastWrite]
    rw [ih]
    cases hrest : lastWrite data rest k with
    | some fm' => simp
    | none =>
      cases hsrc : lookupKey data fm.source_field with
      | none =>
        have hno : ¬ (fm.target_field = k ∧ (lookupKey data fm.source_field).isSome) := by
          simp [hsrc]
        simp [hno]
      | some v =>
        by_cases htgt : fm.target_field = k
        · have hyes : fm.target_field = k ∧ (lookupKey data fm.source_field).isSome := by
            simp [htgt, hsrc]
          simp [hyes, lookupKey_setKey, htgt, hsrc]
        · have hno : ¬ (fm.target_field = k ∧ (lookupKey data fm.source_field).isSome) := by
            simp [htgt]
          simp [hno, lookupKey_setKey, htgt]

/-- Full functional characterisation of `apply_mapping`: the value at any
key `k` is the (transformed) source value of the last field mapping that
writes to `k`, and the original value of `data` at `k` when no field
mapping writes to `k`. -/
theorem lookup_apply_mapping (data : Obj) (mapping : SchemaMapping) (k : String) :
    lookupKey (apply_mapping data mapping) k =
    (match lastWrite data mapping.field_mappings k with
     | some fm => some (mappedValue fm ((lookupKey data fm.source_field).getD .vnull))
     | none => lookupKey data k) :=
  lookup_foldl_apply data mapping.field_mappings data k

/-! ## Shape Registry (`SchemaRegistry`) -/

/-- Python `s.strip("/")` on a character list: remove every leading and
trailing slash. -/
def stripSlashes (cs : List Char) : List Char :=
  ((cs.dropWhile (· = '/')).reverse.dropWhile (· = '/')).reverse

/-- `endpoint.strip("/").split("/")` from `_matches_pattern`. -/
def splitPath (s : String) : List String :=
  (splitOnChar '/' (stripSlashes s.toList)).map fun cs => String.mk cs

/-- `pat_part.startswith("{") and pat_part.endswith("}")`. -/
def isWildcard (seg : String) : Bool :=
  (seg.toList.head? == some '{') && (seg.toList.getLast? == some '}')

/-- The body of `_matches_pattern` after splitting: equal segment counts,
and every pattern segment is a wildcard or equals the path segment. -/
def matchParts (es ps : List String) : Bool :=
  (es.length == ps.length) && (es.zip ps).all fun q => isWildcard q.2 || q.1 == q.2

/-- `SchemaRegistry._matches_pattern`. -/
def matches_pattern (endpoint pattern : String) : Bool :=
  matchParts (splitPath endpoint) (splitPath pattern)

/-- `SchemaRegistry.register`: Python dict assignment — overwrite an
existing binding in place, otherwise append (dicts preserve insertion
order). -/
def registerPattern (reg : List (String × α)) (pat : String) (m : α) :
    List (String × α) :=
  if reg.any (fun q => q.1 == pat) then
    reg.map fun q => if q.1 == pat then (q.1, m) else q
  else reg ++ [(pat, m)]

/-- `SchemaRegistry.get_schema`: exact key match first, then the first
registered pattern (in registration order) that structurally matches. -/
def get_schema (reg : List (String × α)) (endpoint : String) : Option α :=
  match reg.find? (fun q => q.1 == endpoint) with
  | some q => some q.2
  | none =>
    match reg.find? (fun q => matches_pattern endpoint q.1) with
    | some q => some q.2
    | none => none

theorem matchParts_iff (es ps : List String) :
    matchParts es ps = true ↔
      (es.length = ps.length ∧ ∀ i (h₁ : i < es.length) (h₂ : i < ps.length),
        isWildcard (ps.get ⟨i, h₂⟩) = true ∨ es.get ⟨i, h₁⟩ = ps.get ⟨i, h₂⟩) := by
  unfold matchParts
  rw [Bool.and_eq_true, List.all_eq_true]
  constructor
  · rintro ⟨hlen, hall⟩
    have hlen' : es.length = ps.length := by simpa using hlen
    refine ⟨hlen', fun i h₁ h₂ => ?_⟩
    have hz : i < (es.zip ps).length := by
      simp [List.length_zip, hlen']
      omega
    have hget : (es.zip ps).get ⟨i, hz⟩ = (es.get ⟨i, h₁⟩, ps.get ⟨i, h₂⟩) := by
      simp [List.get_eq_getElem, List.getElem_zip]
    have hmem : (es.get ⟨i, h₁⟩, ps.get ⟨i, h₂⟩) ∈ es.zip ps :=
      hget ▸ List.get_mem _ _ _
    have hq := hall _ hmem
    simpa using hq
  · rintro ⟨hlen, hcond⟩
    refine ⟨by simpa using hlen, fun q hq => ?_⟩
    obtain ⟨⟨i, hz⟩, hget⟩ := List.mem_iff_get.mp hq
    have h₁ : i < es.length := by
      simp [List.length_zip] at hz
      omega
    have h₂ : i < ps.length := by
      simp [List.length_zip] at hz
      omega
    have hq' : q = (es.get ⟨i, h₁⟩, ps.get ⟨i, h₂⟩) := by
      rw [← hget]
      simp [List.get_eq_getElem, List.getElem_zip]
    subst hq'
    simpa using hcond i h₁ h₂

/-! ## Thought Broadcaster (`AgentStreamManager`)

The asynchronous wait of `emit` on the approval gate is modelled by an
explicit `ApprovalOutcome` parameter: either some other task calls
`approve_pending` before the 60 s timeout, or the wait times out. -/

/-- `agent_stream.ThoughtType`. -/
inductive ThoughtType where
  | alert | analyzing | scanning | hypothesis | patching | retrying
  | success | failure | waiting | info
deriving DecidableEq, Repr

/-- `agent_stream.AgentThought` (timestamp and the open `details` map are
not tracked). -/
structure Thought where
  id : String
  type : ThoughtType
  message : String
  confidence : Option Rat := none
  cost_usd : Option Rat := none
  requires_approval : Bool := false
deriving DecidableEq, Repr

/-- `AgentStreamManager(max_history=100)`. -/
def maxHistory : Nat := 100

/-- The in-process state of the `AgentStreamManager` singleton (the
subscriber queues receive exactly the emitted thoughts and are not
tracked separately). -/
structure StreamState where
  history : List Thought := []
  counter : Nat := 0
  pending : Option Thought := none
  eventExists : Bool := false
  approvalResult : Bool := false
  total_cost : Rat := 0
  session_healings : Nat := 0
deriving DecidableEq, Repr

/-- `deque(maxlen=100)` append: drop the oldest entries past capacity. -/
def pushHistory (h : List Thought) (t : Thought) : List Thought :=
  let h' := h ++ [t]
  if maxHistory < h'.length then h'.drop (h'.length - maxHistory) else h'

/-- The unconditional part of `AgentStreamManager.emit`: build the thought
with the next id, track cost (`if cost_usd:` — Python truthiness, so a
zero cost is not added), append to bounded history, broadcast. -/
def StreamState.emitCore (s : StreamState) (ty : ThoughtType) (msg : String)
    (conf cost : Option Rat) (reqApproval : Bool) : Thought × StreamState :=
  let t : Thought :=
    { id := "thought_" ++ toString (s.counter + 1), type := ty, message := msg,
      confidence := conf, cost_usd := cost, requires_approval := reqApproval }
  let newCost :=
    match cost with
    | some c => if c = 0 then s.total_cost else s.total_cost + c
    | none => s.total_cost
  (t, { s with
        counter := s.counter + 1
        history := pushHistory s.history t
        total_cost := newCost })

/-- `emit` with `requires_approval=False`: no gate interaction. -/
def StreamState.emitPlain (s : StreamState) (ty : ThoughtType) (msg : String)
    (conf cost : Option Rat) : Thought × StreamState :=
  s.emitCore ty msg conf cost false

/-- `AgentStreamManager.approve_pending`: a no-op returning `False` unless
both `_approval_event` and `_pending_approval` are set; otherwise store
the verdict, wake the waiter, emit an info thought and clear the slot. -/
def StreamState.approve_pending (s : StreamState) (approved : Bool) :
    Bool × StreamState :=
  if s.eventExists ∧ s.pending.isSome then
    let s₁ := { s with approvalResult := approved }
    let s₂ := (s₁.emitPlain .info
      (if approved then "User approved the healing action"
       else "User rejected the healing action") none none).2
    (true, { s₂ with pending := none, eventExists := false })
  else (false, s)

/-- What the outside world does while `emit` waits on the approval gate. -/
inductive ApprovalOutcome where
  | timeout
  | external (approved : Bool)
deriving DecidableEq, Repr

/-- `asyncio.wait_for(..., timeout=60.0)` in `emit`. -/
def approvalTimeoutSeconds : Nat := 60

/-- `emit` with `requires_approval=True`: broadcast the thought, set the
pending slot and the event, then wait.  If another task answers via
`approve_pending` before the timeout, return the stored verdict (the slot
was cleared by that call); on timeout, emit a follow-up failure thought
and default to proceed, leaving the pending slot set. -/
def StreamState.emitApproval (s : StreamState) (ty : ThoughtType) (msg : String)
    (conf : Option Rat) (outcome : ApprovalOutcome) : Bool × StreamState :=
  let c := s.emitCore ty msg conf none true
  let s₂ := { c.2 with pending := some c.1, eventExists := true }
  match outcome with
  | .external b =>
    let s₃ := (s₂.approve_pending b).2
    (s₃.approvalResult, s₃)
  | .timeout =>
    let s₃ := (s₂.emitPlain .failure
      "Approval timeout - proceeding with caution" none none).2
    (true, s₃)

/-! ## Event Log records and the Healing Engine (`SchemaHealer`) -/

/-- `app/models.py` `HealingEventType`. -/
inductive HealingEventType where
  | schema_mismatch | http_error | validation_error
  | healing_started | healing_success | healing_failed
deriving DecidableEq, Repr

/-- `app/models.py` `HealingEvent`, restricted to the fields the claims
are about (payload snapshots, timestamps and the open metadata map are
not tracked). -/
structure HealingEvent where
  event_type : HealingEventType
  endpoint : String
  success : Bool := false
deriving DecidableEq, Repr

/-- One entry of the LLM answer's `field_mappings` list, after
`mapping_data.get(...)` (`confidence` defaults to 0). -/
structure ProposedMapping where
  source_field : String
  target_field : String
  transform : Option String := none
  confidence : Rat := 0
deriving DecidableEq, Repr

/-- The parsed LLM answer `{field_mappings, analysis, can_heal}`
(`can_heal` defaults to `False`). -/
structure HealingResult where
  field_mappings : List ProposedMapping := []
  analysis : String := ""
  can_heal : Bool := false
deriving DecidableEq, Repr

/-- The settings and `set_approval_mode` state `analyze_and_heal` reads. -/
structure HealerConfig where
  healing_confidence_threshold : Rat := 0.8
  require_approval_for_low_confidence : Bool := false
  confidence_threshold_for_approval : Rat := 0.7
  llm_model : String := "gpt-4o-mini"
deriving DecidableEq, Repr

/-- The defaults of `app/config.py` / `SchemaHealer.__init__`. -/
def defaultHealerConfig : HealerConfig := {}

/-- The inputs of one `analyze_and_heal` invocation.  `validate` is the
success predicate of `expected_model.model_validate`. -/
structure HealInput where
  endpoint : String
  validate : Obj → Bool
  actual : Obj

/-- Everything one `analyze_and_heal` invocation produces: the returned
mapping, the events appended to the Event Log, the cache writes issued,
and the broadcaster state. -/
structure HealOutcome where
  result : Option SchemaMapping
  events : List HealingEvent
  cached : List (String × SchemaMapping)
  stream : StreamState

def startedEvent (e : String) : HealingEvent :=
  { event_type := .healing_started, endpoint := e }

def failedEvent (e : String) : HealingEvent :=
  { event_type := .healing_failed, endpoint := e }

def successEvent (e : String) : HealingEvent :=
  { event_type := .healing_success, endpoint := e, success := true }

/-- `FieldMapping(source_field=..., target_field=..., transform=...,
confidence=...)` from one proposal. -/
def ProposedMapping.toFieldMapping (p : ProposedMapping) : FieldMapping :=
  { source_field := p.source_field, target_field := p.target_field,
    transform := p.transform, confidence := p.confidence }

/-- The proposal loop of `analyze_and_heal` (STEP 5→6): update
`min_confidence` for *every* proposal, emit a per-field thought, skip a
proposal below the confidence threshold (emitting an info thought),
otherwise append the `FieldMapping`. -/
def processProposals (threshold : Rat) (ps : List ProposedMapping)
    (s : StreamState) (minC : Rat) (acc : List FieldMapping) :
    List FieldMapping × Rat × StreamState :=
  match ps with
  | [] => (acc, minC, s)
  | p :: rest =>
    let minC' := min minC p.confidence
    let s₁ := (s.emitPlain .scanning
      ("Mapping: " ++ p.source_field ++ " -> " ++ p.target_field)
      (some p.confidence) none).2
    if p.confidence < threshold then
      let s₂ := (s₁.emitPlain .info "Skipping low-confidence mapping" none none).2
      processProposals threshold rest s₂ minC' acc
    else
      processProposals threshold rest s₁ minC' (acc ++ [p.toFieldMapping])

/-- The field mappings surviving the proposal loop: exactly the proposals
at or above the threshold, in order. -/
def survivingMappings (threshold : Rat) (ps : List ProposedMapping) :
    List FieldMapping :=
  (ps.filter fun p => ¬ p.confidence < threshold).map ProposedMapping.toFieldMapping

/-- `min_confidence` after the proposal loop (initial value 1.0, folded
over *all* proposals, the discarded ones included). -/
def minConfidence (ps : List ProposedMapping) : Rat :=
  ps.foldl (fun m p => min m p.confidence) 1

theorem processProposals_fst (threshold : Rat) (ps : List ProposedMapping)
    (s : StreamState) (minC : Rat) (acc : List FieldMapping) :
    (processProposals threshold ps s minC acc).1 =
      acc ++ survivingMappings threshold ps := by
  induction ps generalizing s minC acc with
  | nil => simp [processProposals, survivingMappings]
  | cons p rest ih =>
    by_cases h : p.confidence < threshold
    · simp [processProposals, h, ih, survivingMappings, List.filter_cons,
        not_le.mpr h]
    · simp [processProposals, h, ih, survivingMappings, List.filter_cons,
        not_lt.mp h]

theorem processProposals_minC (threshold : Rat) (ps : List ProposedMapping)
    (s : StreamState) (minC : Rat) (acc : List FieldMapping) :
    (processProposals threshold ps s minC acc).2.1 =
      ps.foldl (fun m p => min m p.confidence) minC := by
  induction ps generalizing s minC acc with
  | nil => simp [processProposals]
  | cons p rest ih =>
    by_cases h : p.confidence < threshold <;>
      simp [processProposals, h, ih]

/-- `SchemaMapping(endpoint=..., field_mappings=..., created_by="auto",
llm_model=...)` as constructed at STEP 7. -/
def builtMapping (cfg : HealerConfig) (inp : HealInput)
    (fms : List FieldMapping) : SchemaMapping :=
  { endpoint := inp.endpoint, field_mappings := fms, created_by := "auto",
    llm_model := some cfg.llm_model }

/-- STEP 7→9 of `analyze_and_heal`: emit the patching thought, construct
the `SchemaMapping` from the surviving field mappings, apply it to the
triggering payload, re-validate, and either fail (event, no cache write)
or persist to the cache, bump the session healing counter, emit the
success thought and log `healing_success`. -/
def finishHealing (cfg : HealerConfig) (inp : HealInput)
    (fms : List FieldMapping) (minC : Rat) (events : List HealingEvent)
    (s : StreamState) : HealOutcome :=
  let s₁ := (s.emitPlain .patching "Hot-patching schema mapping" none none).2
  let mapping : SchemaMapping := builtMapping cfg inp fms
  let healed := apply_mapping inp.actual mapping
  let s₂ := (s₁.emitPlain .retrying
    "Validating healed data against expected schema" none none).2
  if inp.validate healed then
    let s₃ := { s₂ with session_healings := s₂.session_healings + 1 }
    let s₄ := (s₃.emitPlain .success
      "Schema healed successfully! Cached for future requests."
      (some minC) none).2
    { result := some mapping,
      events := events ++ [successEvent inp.endpoint],
      cached := [(inp.endpoint, mapping)],
      stream := s₄ }
  else
    let s₃ := (s₂.emitPlain .failure
      "Healed data still fails validation" none none).2
    { result := none,
      events := events ++ [failedEvent inp.endpoint],
      cached := [],
      stream := s₃ }

/-- STEP 6 of `analyze_and_heal` (human in the loop): when enabled and the
lowest seen confidence is below the review threshold, emit the
approval-requiring thought (blocking per the gate), then — discarding
`emit`'s return value — call `approve_pending(True)` and treat its
boolean as the verdict.  A rejection terminates with no mapping and no
event. -/
def approvalStage (cfg : HealerConfig) (inp : HealInput)
    (fms : List FieldMapping) (minC : Rat) (events : List HealingEvent)
    (outcome : ApprovalOutcome) (s : StreamState) : HealOutcome :=
  if cfg.require_approval_for_low_confidence ∧
      minC < cfg.confidence_threshold_for_approval then
    let s₁ := (s.emitApproval .waiting
      "Low confidence. Waiting for human approval" (some minC) outcome).2
    let ar := s₁.approve_pending true
    if ar.1 then finishHealing cfg inp fms minC events ar.2
    else
      let s₂ := (ar.2.emitPlain .failure "Healing rejected by user" none none).2
      { result := none, events := events, cached := [], stream := s₂ }
  else finishHealing cfg inp fms minC events s

/-- STEP 5→6 of `analyze_and_heal` once the LLM said `can_heal`: emit the
hypothesis thought, run the proposal loop; with zero survivors emit a
failure thought and terminate (returning `None` — note: no event is
logged on this path), else continue. -/
def survivorsStage (cfg : HealerConfig) (inp : HealInput)
    (hres : HealingResult) (events : List HealingEvent)
    (outcome : ApprovalOutcome) (s : StreamState) : HealOutcome :=
  let s₁ := (s.emitPlain .hypothesis ("Hypothesis: " ++ hres.analysis) none none).2
  let pr := processProposals cfg.healing_confidence_threshold
    hres.field_mappings s₁ 1 []
  if pr.1.isEmpty then
    let s₂ := (pr.2.2.emitPlain .failure
      "No valid mappings could be generated" none none).2
    { result := none, events := events, cached := [], stream := s₂ }
  else approvalStage cfg inp pr.1 pr.2.1 events outcome pr.2.2

/-- `SchemaHealer.analyze_and_heal` as a function of its inputs plus the
two awaited external behaviours: the LLM call (`none` models a raised
transport/parse error, routed to the outer `except` branch) and the
approval gate outcome.  Pacing sleeps, timestamps and cost amounts do not
affect control flow and are not tracked. -/
def analyze_and_heal (cfg : HealerConfig) (inp : HealInput)
    (llm : Option HealingResult) (outcome : ApprovalOutcome)
    (s : StreamState) : HealOutcome :=
  let s₁ := (s.emitPlain .alert
    ("Schema validation failed for " ++ inp.endpoint) none none).2
  let events := [startedEvent inp.endpoint]
  let s₂ := (s₁.emitPlain .analyzing "Analyzing validation errors" none none).2
  let s₃ := (s₂.emitPlain .scanning "Scanning response payload" none none).2
  let s₄ := (s₃.emitPlain .analyzing
    "Consulting AI to analyze the schema mismatch" none none).2
  match llm with
  | none =>
    let s₅ := (s₄.emitPlain .failure "Healing error" none none).2
    { result := none, events := events ++ [failedEvent inp.endpoint],
      cached := [], stream := s₅ }
  | some hres =>
    if hres.can_heal then survivorsStage cfg inp hres events outcome s₄
    else
      let s₅ := (s₄.emitPlain .failure
        ("Cannot heal: " ++ hres.analysis) none none).2
      { result := none, events := events ++ [failedEvent inp.endpoint],
        cached := [], stream := s₅ }

/-! ## Mapping Cache (`RedisClient`) and the Gateway's cache stage -/

/-- The behaviour of the backing Redis store during one call: reachable
with some stored (already parsed) mappings, or unreachable (every command
raises). -/
inductive Backend where
  | unreachable
  | store (entries : List (String × SchemaMapping))

/-- `RedisClient`'s own state: whether `connect` succeeded
(`_client is not None`). -/
structure RedisClientState where
  connected : Bool

/-- `RedisClient._make_key`. -/
def makeKey (endpoint : String) : String := "schema_healer:mapping:" ++ endpoint

/-- `RedisClient.get_mapping`: not connected → `None`; a raising backend →
caught, `None`; otherwise the stored mapping for the key, if any. -/
def get_mapping (st : RedisClientState) (be : Backend) (endpoint : String) :
    Option SchemaMapping :=
  if st.connected = false then none
  else
    match be with
    | .unreachable => none
    | .store entries =>
      match entries.find? (fun q => q.1 == makeKey endpoint) with
      | some q => some q.2
      | none => none

/-- `RedisClient.set_mapping`: not connected → `False`; a raising backend
→ caught, `False`; otherwise `True`. -/
def set_mapping (st : RedisClientState) (be : Backend) (endpoint : String)
    (m : SchemaMapping) : Bool :=
  if st.connected = false then false
  else
    match be with
    | .unreachable => false
    | .store _ => true

/-- The Gateway's decision after upstream success, JSON parse and schema
resolution (`proxy_request` lines 153–291), for a single-object response:
branch on the cache answer, then on validation, auto-healing and the
engine's answer.  (`schema_mismatch`/`http_error` event logging does not
affect the response and is not tracked here.) -/
structure ProxyResult where
  status_code : Nat
  body : Value
  healed : Bool
  from_cache : Option Bool

def handleCacheStage (upstreamStatus : Nat) (response_data : Obj)
    (cached : Option SchemaMapping) (valid : Bool) (autoHeal : Bool)
    (engine : Option SchemaMapping) : ProxyResult :=
  match cached with
  | some mapping =>
    { status_code := upstreamStatus
      body := .vobj (apply_mapping response_data mapping)
      healed := true
      from_cache := some true }
  | none =>
    if valid then
      { status_code := upstreamStatus, body := .vobj response_data,
        healed := false, from_cache := none }
    else if autoHeal = false then
      { status_code := 500
        body := .vobj [("error", .vstr "Schema validation failed")]
        healed := false
        from_cache := none }
    else
      match engine with
      | some m =>
        { status_code := upstreamStatus
          body := .vobj (apply_mapping response_data m)
          healed := true
          from_cache := some false }
      | none =>
        { status_code := 500
          body := .vobj [("error", .vstr "Schema healing failed")]
          healed := false
          from_cache := none }

/-! ## Event Log statistics (`MongoDBClient.get_healing_stats`) -/

/-- One step of the `$group` aggregation: bump the count of an event
type. -/
def bumpCount (l : List (HealingEventType × Nat)) (t : HealingEventType) :
    List (HealingEventType × Nat) :=
  match l with
  | [] => [(t, 1)]
  | (t', n) :: rest =>
    if t' = t then (t', n + 1) :: rest else (t', n) :: bumpCount rest t

/-- The `$group`-by-`event_type` counts over the events in the window. -/
def groupCounts (events : List HealingEventType) :
    List (HealingEventType × Nat) :=
  events.foldl bumpCount []

/-- `stats["by_type"].get(key, 0)`. -/
def lookupCount : List (HealingEventType × Nat) → HealingEventType → Nat
  | [], _ => 0
  | (t', n) :: rest, t => if t' = t then n else lookupCount rest t

/-- Python3 `round` at a tie rounds half to even. -/
def roundHalfEven (q : Rat) : Int :=
  let f := Int.floor q
  if q - f < 1/2 then f
  else if 1/2 < q - f then f + 1
  else if f % 2 = 0 then f else f + 1

/-- Python `round(x, 2)` on the (rational-modelled) float `x`. -/
def pyRound2 (q : Rat) : Rat := (roundHalfEven (q * 100) : Rat) / 100

/-- The fields of the dict returned by `get_healing_stats`. -/
structure HealingStats where
  period_hours : Nat
  total_events : Nat
  by_type : List (HealingEventType × Nat)
  success_rate : Rat

/-- `MongoDBClient.get_healing_stats`, as a function of the event types
inside the window: group-count by type, total them, and compute
`round(success/started*100, 2)`, or `0.0` when nothing started. -/
def get_healing_stats (hours : Nat) (events : List HealingEventType) :
    HealingStats :=
  let by_type := groupCounts events
  let total := (by_type.map (fun q => q.2)).sum
  let success_count := lookupCount by_type .healing_success
  let started_count := lookupCount by_type .healing_started
  { period_hours := hours
    total_events := total
    by_type := by_type
    success_rate :=
      if 0 < started_count then
        pyRound2 ((success_count : Rat) / (started_count : Rat) * 100)
      else 0 }

theorem lookupCount_bumpCount (l : List (HealingEventType × Nat))
    (t' t : HealingEventType) :
    lookupCount (bumpCount l t') t =
      lookupCount l t + (if t' = t then 1 else 0) := by
  induction l with
  | nil =>
    by_cases h : t' = t <;> simp [bumpCount, lookupCount, h]
  | cons q rest ih =>
    obtain ⟨a, n⟩ := q
    by_cases ha : a = t'
    · subst ha
      by_cases h : a = t <;> simp [bumpCount, lookupCount, h]
    · simp only [bumpCount, if_neg ha, lookupCount]
      by_cases h : a = t
      · subst h
        have ht : ¬ t' = a := fun hc => ha hc.symm
        simp [ht]
      · simp [h, ih]

theorem lookupCount_groupCounts_aux (events : List HealingEventType)
    (l : List (HealingEventType × Nat)) (t : HealingEventType) :
    lookupCount (events.foldl bumpCount l) t =
      lookupCount l t + events.count t := by
  induction events generalizing l with
  | nil => simp
  | cons e rest ih =>
    simp only [List.foldl_cons, ih, lookupCount_bumpCount, List.count_cons]
    by_cases h : e = t
    · simp [h]
      omega
    · simp [h]

/-- The aggregation model agrees with direct counting. -/
theorem lookupCount_groupCounts (events : List HealingEventType)
    (t : HealingEventType) :
    lookupCount (groupCounts events) t = events.count t := by
  rw [groupCounts, lookupCount_groupCounts_aux]
  simp [lookupCount]

/-! ## Pipeline lemmas -/

theorem mem_survivingMappings_le {threshold : Rat} {ps : List ProposedMapping}
    {fm : FieldMapping} (h : fm ∈ survivingMappings threshold ps) :
    threshold ≤ fm.confidence := by
  simp only [survivingMappings, List.mem_map, List.mem_filter, not_lt,
    decide_eq_true_eq] at h
  obtain ⟨p, ⟨_, hle⟩, rfl⟩ := h
  exact hle

theorem finishHealing_of_valid (cfg : HealerConfig) (inp : HealInput)
    (fms : List FieldMapping) (minC : Rat) (events : List HealingEvent)
    (s : StreamState)
    (h : inp.validate (apply_mapping inp.actual (builtMapping cfg inp fms)) = true) :
    (finishHealing cfg inp fms minC events s).result =
        some (builtMapping cfg inp fms) ∧
      (finishHealing cfg inp fms minC events s).cached =
        [(inp.endpoint, builtMapping cfg inp fms)] ∧
      (finishHealing cfg inp fms minC events s).events =
        events ++ [successEvent inp.endpoint] := by
  simp [finishHealing, h]

theorem finishHealing_of_invalid (cfg : HealerConfig) (inp : HealInput)
    (fms : List FieldMapping) (minC : Rat) (events : List HealingEvent)
    (s : StreamState)
    (h : inp.validate (apply_mapping inp.actual (builtMapping cfg inp fms)) = false) :
    (finishHealing cfg inp fms minC events s).result = none ∧
      (finishHealing cfg inp fms minC events s).cached = [] ∧
      (finishHealing cfg inp fms minC events s).events =
        events ++ [failedEvent inp.endpoint] := by
  simp [finishHealing, h]

/-- After a timed-out approval emission the pending slot is still set, so
the engine's own `approve_pending(True)` finds it and reports `True`. -/
theorem approve_pending_after_timeout (s : StreamState) (ty : ThoughtType)
    (msg : String) (conf : Option Rat) :
    ((s.emitApproval ty msg conf .timeout).2.approve_pending true).1 = true := by
  simp [StreamState.emitApproval, StreamState.approve_pending,
    StreamState.emitPlain, StreamState.emitCore]

/-- After an externally answered approval emission the pending slot was
cleared, so the engine's own `approve_pending(True)` is a no-op reporting
`False`. -/
theorem approve_pending_after_external (s : StreamState) (ty : ThoughtType)
    (msg : String) (conf : Option Rat) (b : Bool) :
    ((s.emitApproval ty msg conf (.external b)).2.approve_pending true).1 = false := by
  simp [StreamState.emitApproval, StreamState.approve_pending,
    StreamState.emitPlain, StreamState.emitCore]

theorem survivorsStage_cached_sound (cfg : HealerConfig) (inp : HealInput)
    (hres : HealingResult) (events : List HealingEvent)
    (outcome : ApprovalOutcome) (s : StreamState) :
    ∀ q ∈ (survivorsStage cfg inp hres events outcome s).cached,
      q.1 = inp.endpoint ∧
      q.2 = builtMapping cfg inp
        (survivingMappings cfg.healing_confidence_threshold hres.field_mappings) ∧
      inp.validate (apply_mapping inp.actual q.2) = true := by
  intro q hq
  simp only [survivorsStage, processProposals_fst, List.nil_append] at hq
  split at hq
  · simp at hq
  · simp only [approvalStage] at hq
    split at hq
    · split at hq
      · simp only [finishHealing] at hq
        split at hq
        · next hval =>
          simp only [List.mem_singleton] at hq
          subst hq
          exact ⟨rfl, rfl, hval⟩
        · simp at hq
      · simp at hq
    · simp only [finishHealing] at hq
      split at hq
      · next hval =>
        simp only [List.mem_singleton] at hq
        subst hq
        exact ⟨rfl, rfl, hval⟩
      · simp at hq

/-- Soundness of every cache write of one healing invocation: it is the
mapping built from the surviving proposals, written under the triggering
endpoint, and only after successful re-validation. -/
theorem analyze_cached_sound (cfg : HealerConfig) (inp : HealInput)
    (llm : Option HealingResult) (outcome : ApprovalOutcome) (s : StreamState) :
    ∀ q ∈ (analyze_and_heal cfg inp llm outcome s).cached,
      ∃ hres, llm = some hres ∧ hres.can_heal = true ∧
        q.1 = inp.endpoint ∧
        q.2 = builtMapping cfg inp
          (survivingMappings cfg.healing_confidence_threshold hres.field_mappings) ∧
        inp.validate (apply_mapping inp.actual q.2) = true := by
  intro q hq
  cases llm with
  | none => simp [analyze_and_heal] at hq
  | some hres =>
    by_cases hch : hres.can_heal
    · refine ⟨hres, rfl, hch, ?_⟩
      simp only [analyze_and_heal, hch, if_true] at hq
      exact survivorsStage_cached_sound cfg inp hres _ outcome _ q hq
    · simp [analyze_and_heal, hch] at hq

theorem getLast?_pushHistory (h : List Thought) (t : Thought) :
    (pushHistory h t).getLast? = some t := by
  unfold pushHistory
  simp only []
  split
  · next hlen =>
    have hle : (h ++ [t]).length - maxHistory ≤ h.length := by
      simp only [List.length_append, List.length_singleton, maxHistory]
      omega
    rw [List.drop_append_of_le_length hle, List.getLast?_append_cons]
    rfl
  · rw [List.getLast?_append_cons]
    rfl

theorem processProposals_minC' (threshold : Rat) (ps : List ProposedMapping)
    (s : StreamState) :
    (processProposals threshold ps s 1 []).2.1 = minConfidence ps := by
  rw [processProposals_minC]
  rfl

theorem isEmpty_false_of_ne_nil {l : List FieldMapping} (h : l ≠ []) :
    ¬ (l.isEmpty = true) := by
  simpa [List.isEmpty_iff] using h

/-- When the approval gate is not triggered (approval mode off, or the
minimum seen confidence at or above the review threshold), the invocation
proceeds directly to the patch-and-revalidate stage. -/
theorem analyze_no_gate (cfg : HealerConfig) (inp : HealInput)
    (hres : HealingResult) (outcome : ApprovalOutcome) (s : StreamState)
    (hch : hres.can_heal = true)
    (hsurv : survivingMappings cfg.healing_confidence_threshold hres.field_mappings ≠ [])
    (hng : cfg.require_approval_for_low_confidence = false ∨
      ¬ minConfidence hres.field_mappings < cfg.confidence_threshold_for_approval) :
    ∃ s', analyze_and_heal cfg inp (some hres) outcome s =
      finishHealing cfg inp
        (survivingMappings cfg.healing_confidence_threshold hres.field_mappings)
        (minConfidence hres.field_mappings) [startedEvent inp.endpoint] s' := by
  simp only [analyze_and_heal, hch, if_true, survivorsStage,
    processProposals_fst, processProposals_minC', List.nil_append]
  rw [if_neg (isEmpty_false_of_ne_nil hsurv)]
  simp only [approvalStage]
  rw [if_neg]
  · exact ⟨_, rfl⟩
  · rcases hng with h | h
    · rintro ⟨h₁, -⟩
      rw [h] at h₁
      exact absurd h₁ (by decide)
    · rintro ⟨-, h₂⟩
      exact h h₂

/-- When the approval gate is triggered and times out, the engine's own
`approve_pending(True)` finds the still-set slot, so the invocation
proceeds to the patch-and-revalidate stage. -/
theorem analyze_gate_timeout (cfg : HealerConfig) (inp : HealInput)
    (hres : HealingResult) (s : StreamState)
    (hch : hres.can_heal = true)
    (hsurv : survivingMappings cfg.healing_confidence_threshold hres.field_mappings ≠ [])
    (hreq : cfg.require_approval_for_low_confidence = true)
    (hlow : minConfidence hres.field_mappings < cfg.confidence_threshold_for_approval) :
    ∃ s', analyze_and_heal cfg inp (some hres) .timeout s =
      finishHealing cfg inp
        (survivingMappings cfg.healing_confidence_threshold hres.field_mappings)
        (minConfidence hres.field_mappings) [startedEvent inp.endpoint] s' := by
  simp only [analyze_and_heal, hch, if_true, survivorsStage,
    processProposals_fst, processProposals_minC', List.nil_append]
  rw [if_neg (isEmpty_false_of_ne_nil hsurv)]
  simp only [approvalStage]
  rw [if_pos ⟨hreq, hlow⟩]
  simp only [approve_pending_after_timeout, if_true]
  exact ⟨_, rfl⟩

/-- When the approval gate is triggered and some external caller answers
before the timeout — with either verdict — the engine's own follow-up
`approve_pending(True)` reports `False` and the invocation terminates
with no mapping, no cache write, and only the `healing_started` event. -/
theorem analyze_gate_external (cfg : HealerConfig) (inp : HealInput)
    (hres : HealingResult) (b : Bool) (s : StreamState)
    (hch : hres.can_heal = true)
    (hsurv : survivingMappings cfg.healing_confidence_threshold hres.field_mappings ≠ [])
    (hreq : cfg.require_approval_for_low_confidence = true)
    (hlow : minConfidence hres.field_mappings < cfg.confidence_threshold_for_approval) :
    (analyze_and_heal cfg inp (some hres) (.external b) s).result = none ∧
      (analyze_and_heal cfg inp (some hres) (.external b) s).cached = [] ∧
      (analyze_and_heal cfg inp (some hres) (.external b) s).events =
        [startedEvent inp.endpoint] := by
  simp only [analyze_and_heal, hch, if_true, survivorsStage,
    processProposals_fst, processProposals_minC', List.nil_append]
  rw [if_neg (isEmpty_false_of_ne_nil hsurv)]
  simp only [approvalStage]
  rw [if_pos ⟨hreq, hlow⟩]
  simp only [approve_pending_after_external]
  simp

/-! ## Claims -/

/-- C3: for every raw object and `SchemaMapping`, mapping application
returns a new object whose value at any key is: the (transformed, when a
transform is named) source value of the last field mapping writing to
that key whose `source_field` is present in the raw object (overwriting
an existing key), and the raw object's own value at keys no field mapping
writes to (pass-through); and a transform that raises on a value is
caught with the untransformed original value substituted, so application
never aborts. -/
theorem apply_mapping_characterisation (data : Obj) (mapping : SchemaMapping)
    (k : String) :
    (lookupKey (apply_mapping data mapping) k =
      match lastWrite data mapping.field_mappings k with
      | some fm =>
        some (mappedValue fm ((lookupKey data fm.source_field).getD .vnull))
      | none => lookupKey data k) ∧
    (∀ (t : String) (f : Value → Option Value) (v : Value),
      transformFn t = some f → f v = none → apply_transform v t = v) := by
  refine ⟨lookup_apply_mapping data mapping k, fun t f v ht hf => ?_⟩
  simp [apply_transform, ht, hf]

def c3Data : Obj := [("uid", .vint 1), ("full_name", .vstr "A")]

def c3Mapping : SchemaMapping :=
  { endpoint := "/api/users"
    field_mappings :=
      [{ source_field := "uid", target_field := "user_id", transform := none,
         confidence := 1 },
       { source_field := "full_name", target_field := "name", transform := none,
         confidence := 1 }] }

theorem apply_mapping_characterisation_witness :
    lookupKey (apply_mapping c3Data c3Mapping) "user_id" = some (.vint 1) ∧
    apply_transform (.vstr "abc") "to_int" = .vstr "abc" := by
  have h := apply_mapping_characterisation c3Data c3Mapping "user_id"
  refine ⟨?_, h.2 "to_int" toIntFn (.vstr "abc") rfl rfl⟩
  rw [h.1]
  rfl

/-- C10 as stated is false: a field that is a `target_field` fed from
another mapping's target, while not being any `source_field`, changes on
the second application. -/
def c10Data : Obj := [("a", .vint 1), ("s", .vint 2)]

def c10Mapping : SchemaMapping :=
  { endpoint := "/api/users"
    field_mappings :=
      [{ source_field := "a", target_field := "s", transform := none,
         confidence := 1 },
       { source_field := "s", target_field := "k", transform := none,
         confidence := 1 }] }

/-- C10 counterexample: `"k"` is not a `source_field` of any field
mapping of `c10Mapping`, yet applying the mapping twice to `c10Data`
disagrees with applying it once at `"k"` (`1` versus `2`). -/
theorem apply_mapping_not_idempotent_on_non_source :
    (c10Mapping.field_mappings.all fun fm => fm.source_field != "k") = true ∧
    lookupKey (apply_mapping (apply_mapping c10Data c10Mapping) c10Mapping) "k" ≠
      lookupKey (apply_mapping c10Data c10Mapping) "k" := by
  refine ⟨rfl, ?_⟩
  have h1 : lookupKey (apply_mapping (apply_mapping c10Data c10Mapping) c10Mapping) "k"
      = some (.vint 1) := rfl
  have h2 : lookupKey (apply_mapping c10Data c10Mapping) "k" = some (.vint 2) := rfl
  rw [h1, h2]
  intro hc
  have h3 : Value.vint 1 = Value.vint 2 := Option.some.inj hc
  injection h3 with h4
  exact absurd h4 (by decide)

theorem lastWrite_eq_none_of_no_target (data : Obj) (fms : List FieldMapping)
    (k : String) (h : ∀ fm ∈ fms, fm.target_field ≠ k) :
    lastWrite data fms k = none := by
  induction fms with
  | nil => rfl
  | cons fm rest ih =>
    have hfm : fm.target_field ≠ k := h fm (by simp)
    have hrest := ih fun fm' hm => h fm' (by simp [hm])
    simp [lastWrite, hrest, hfm]

/-- C10 amended: repeated application agrees with single application on
every field that is not the `target_field` of any field mapping (only
target fields are ever written, so such fields pass through unchanged). -/
theorem apply_mapping_idempotent_on_non_target (data : Obj)
    (mapping : SchemaMapping) (k : String)
    (h : ∀ fm ∈ mapping.field_mappings, fm.target_field ≠ k) :
    lookupKey (apply_mapping (apply_mapping data mapping) mapping) k =
      lookupKey (apply_mapping data mapping) k := by
  rw [lookup_apply_mapping]
  rw [lastWrite_eq_none_of_no_target _ _ _ h]

theorem apply_mapping_idempotent_on_non_target_witness :
    lookupKey (apply_mapping (apply_mapping c10Data c10Mapping) c10Mapping) "a" =
      lookupKey (apply_mapping c10Data c10Mapping) "a" :=
  apply_mapping_idempotent_on_non_target c10Data c10Mapping "a"
    (by intro fm hm; fin_cases hm <;> decide)

/-- C4: shape resolution tries an exact key match first (an
exactly-registered path resolves to its own shape even when an earlier
wildcard pattern would also match); a path matches a pattern iff, after
the code's strip-and-split on `/`, segment counts are equal and every
pattern segment is a wildcard token (`{...}`) or literally equal to the
corresponding path segment; in particular differing segment counts never
match. -/
theorem get_schema_resolution {α : Type} (reg : List (String × α))
    (endpoint pattern : String) :
    (∀ q, reg.find? (fun r => r.1 == endpoint) = some q →
      get_schema reg endpoint = some q.2) ∧
    (matches_pattern endpoint pattern = true ↔
      ((splitPath endpoint).length = (splitPath pattern).length ∧
        ∀ i (h₁ : i < (splitPath endpoint).length)
          (h₂ : i < (splitPath pattern).length),
          isWildcard ((splitPath pattern).get ⟨i, h₂⟩) = true ∨
            (splitPath endpoint).get ⟨i, h₁⟩ = (splitPath pattern).get ⟨i, h₂⟩)) ∧
    ((splitPath endpoint).length ≠ (splitPath pattern).length →
      matches_pattern endpoint pattern = false) := by
  refine ⟨fun q hq => ?_, matchParts_iff _ _, fun hne => ?_⟩
  · unfold get_schema
    rw [hq]
  · cases hm : matches_pattern endpoint pattern with
    | false => rfl
    | true => exact absurd ((matchParts_iff _ _).mp hm).1 hne

def c4Registry : List (String × Nat) :=
  [("/api/users/42", 7), ("/api/users/\x7bid\x7d", 1)]

theorem get_schema_resolution_witness :
    get_schema c4Registry "/api/users/42" = some 7 ∧
    matches_pattern "/api/users/42/orders" "/api/users/\x7bid\x7d" = false := by
  constructor
  · exact (get_schema_resolution c4Registry "/api/users/42"
      "/api/users/\x7bid\x7d").1 ("/api/users/42", 7) rfl
  · exact (get_schema_resolution c4Registry "/api/users/42/orders"
      "/api/users/\x7bid\x7d").2.2 (by decide)

/-- C1: a `SchemaMapping` is written to the Mapping Cache only if applying
it to the triggering raw response re-validates against the expected
shape; and when the constructed mapping's application fails re-validation
(on a run that reaches the re-validation step), a `healing_failed` event
is recorded and the invocation returns no mapping with nothing written to
the cache. -/
theorem healing_persists_only_validated (cfg : HealerConfig) (inp : HealInput)
    (llm : Option HealingResult) (outcome : ApprovalOutcome) (s : StreamState) :
    (∀ q ∈ (analyze_and_heal cfg inp llm outcome s).cached,
      inp.validate (apply_mapping inp.actual q.2) = true) ∧
    (∀ hres, llm = some hres → hres.can_heal = true →
      survivingMappings cfg.healing_confidence_threshold hres.field_mappings ≠ [] →
      (cfg.require_approval_for_low_confidence = false ∨
        ¬ minConfidence hres.field_mappings < cfg.confidence_threshold_for_approval ∨
        outcome = .timeout) →
      inp.validate (apply_mapping inp.actual (builtMapping cfg inp
        (survivingMappings cfg.healing_confidence_threshold hres.field_mappings))) = false →
      (analyze_and_heal cfg inp llm outcome s).result = none ∧
      (analyze_and_heal cfg inp llm outcome s).cached = [] ∧
      failedEvent inp.endpoint ∈ (analyze_and_heal cfg inp llm outcome s).events) := by
  constructor
  · intro q hq
    obtain ⟨hres, -, -, -, -, hval⟩ :=
      analyze_cached_sound cfg inp llm outcome s q hq
    exact hval
  · rintro hres rfl hch hsurv hgate hval
    have hfin : ∃ s', analyze_and_heal cfg inp (some hres) outcome s =
        finishHealing cfg inp
          (survivingMappings cfg.healing_confidence_threshold hres.field_mappings)
          (minConfidence hres.field_mappings) [startedEvent inp.endpoint] s' := by
      by_cases htrig : cfg.require_approval_for_low_confidence = true ∧
          minConfidence hres.field_mappings < cfg.confidence_threshold_for_approval
      · have hout : outcome = .timeout := by
          rcases hgate with h | h | h
          · rw [h] at htrig
            exact absurd htrig.1 (by decide)
          · exact absurd htrig.2 h
          · exact h
        subst hout
        exact analyze_gate_timeout cfg inp hres s hch hsurv htrig.1 htrig.2
      · refine analyze_no_gate cfg inp hres outcome s hch hsurv ?_
        rcases Decidable.not_and_iff_or_not.mp htrig with h | h
        · exact Or.inl (by simpa using h)
        · exact Or.inr h
    obtain ⟨s', heq⟩ := hfin
    rw [heq]
    obtain ⟨h₁, h₂, h₃⟩ := finishHealing_of_invalid cfg inp _ _ _ s' hval
    exact ⟨h₁, h₂, by rw [h₃]; simp⟩

def c1Inp : HealInput :=
  { endpoint := "/api/users", validate := fun _ => false,
    actual := [("uid", .vint 1)] }

def c1Hres : HealingResult :=
  { field_mappings :=
      [{ source_field := "uid", target_field := "user_id", confidence := 0.9 }],
    analysis := "rename", can_heal := true }

theorem healing_persists_only_validated_witness :
    (analyze_and_heal defaultHealerConfig c1Inp (some c1Hres)
        .timeout {}).result = none ∧
    (analyze_and_heal defaultHealerConfig c1Inp (some c1Hres)
        .timeout {}).cached = [] ∧
    failedEvent "/api/users" ∈
      (analyze_and_heal defaultHealerConfig c1Inp (some c1Hres)
        .timeout {}).events := by
  have hsurv : survivingMappings defaultHealerConfig.healing_confidence_threshold
      c1Hres.field_mappings ≠ [] := by
    norm_num [survivingMappings, c1Hres, defaultHealerConfig, List.filter]
  have h := (healing_persists_only_validated defaultHealerConfig c1Inp
    (some c1Hres) .timeout {}).2 c1Hres rfl rfl hsurv (Or.inl rfl) rfl
  simpa [c1Inp] using h

/-- C2: no `FieldMapping` below the configured acceptance threshold ever
appears in a cached `SchemaMapping` — every proposal below the threshold
is discarded before the mapping is constructed — and the default
threshold is 0.8. -/
theorem no_low_confidence_mapping_persisted (cfg : HealerConfig)
    (inp : HealInput) (llm : Option HealingResult) (outcome : ApprovalOutcome)
    (s : StreamState) :
    (∀ q ∈ (analyze_and_heal cfg inp llm outcome s).cached,
      ∀ fm ∈ q.2.field_mappings,
        cfg.healing_confidence_threshold ≤ fm.confidence) ∧
    defaultHealerConfig.healing_confidence_threshold = 0.8 := by
  refine ⟨fun q hq fm hfm => ?_, rfl⟩
  obtain ⟨hres, -, -, -, hq2, -⟩ :=
    analyze_cached_sound cfg inp llm outcome s q hq
  rw [hq2] at hfm
  exact mem_survivingMappings_le (by simpa [builtMapping] using hfm)

def c2Inp : HealInput :=
  { endpoint := "/api/users", validate := fun _ => true,
    actual := [("uid", .vint 1)] }

def c2Fm : FieldMapping :=
  { source_field := "uid", target_field := "user_id", transform := none,
    confidence := 0.9 }

def c2Hres : HealingResult :=
  { field_mappings :=
      [{ source_field := "uid", target_field := "user_id", confidence := 0.9 }],
    analysis := "rename", can_heal := true }

theorem no_low_confidence_mapping_persisted_witness :
    defaultHealerConfig.healing_confidence_threshold ≤ c2Fm.confidence := by
  have hsurv : survivingMappings defaultHealerConfig.healing_confidence_threshold
      c2Hres.field_mappings = [c2Fm] := by
    norm_num [survivingMappings, c2Hres, c2Fm, defaultHealerConfig, List.filter,
      ProposedMapping.toFieldMapping]
  obtain ⟨s', heq⟩ := analyze_no_gate defaultHealerConfig c2Inp c2Hres .timeout {}
    rfl (by rw [hsurv]; simp) (Or.inl rfl)
  have hval : c2Inp.validate (apply_mapping c2Inp.actual
      (builtMapping defaultHealerConfig c2Inp
        (survivingMappings defaultHealerConfig.healing_confidence_threshold
          c2Hres.field_mappings))) = true := rfl
  have hcache := (finishHealing_of_valid defaultHealerConfig c2Inp
    (survivingMappings defaultHealerConfig.healing_confidence_threshold
      c2Hres.field_mappings)
    (minConfidence c2Hres.field_mappings) [startedEvent c2Inp.endpoint]
    s' hval).2.1
  have hmem : (c2Inp.endpoint, builtMapping defaultHealerConfig c2Inp
      (survivingMappings defaultHealerConfig.healing_confidence_threshold
        c2Hres.field_mappings)) ∈
      (analyze_and_heal defaultHealerConfig c2Inp (some c2Hres) .timeout {}).cached := by
    rw [heq, hcache]
    simp
  exact (no_low_confidence_mapping_persisted defaultHealerConfig c2Inp
    (some c2Hres) .timeout {}).1 _ hmem c2Fm (by simp [builtMapping, hsurv])

/-- C5 as stated is false on the code: with `can_heal` true and every
proposal below the acceptance threshold, the invocation returns no
mapping but logs no `healing_failed` event — the only event of the
invocation is `healing_started`. -/
def c5Inp : HealInput :=
  { endpoint := "/api/users", validate := fun _ => true,
    actual := [("uid", .vint 1)] }

def c5Hres : HealingResult :=
  { field_mappings :=
      [{ source_field := "uid", target_field := "user_id", confidence := 0.5 }],
    analysis := "rename", can_heal := true }

theorem zero_survivors_logs_no_event :
    (analyze_and_heal defaultHealerConfig c5Inp (some c5Hres)
        .timeout {}).result = none ∧
    failedEvent "/api/users" ∉
      (analyze_and_heal defaultHealerConfig c5Inp (some c5Hres)
        .timeout {}).events := by
  have hch : c5Hres.can_heal = true := rfl
  have hempty : survivingMappings defaultHealerConfig.healing_confidence_threshold
      c5Hres.field_mappings = [] := by
    norm_num [survivingMappings, c5Hres, defaultHealerConfig, List.filter]
  constructor
  · simp only [analyze_and_heal, hch, if_true, survivorsStage,
      processProposals_fst, List.nil_append]
    rw [if_pos (by rw [hempty]; rfl)]
  · simp only [analyze_and_heal, hch, if_true, survivorsStage,
      processProposals_fst, List.nil_append]
    rw [if_pos (by rw [hempty]; rfl)]
    simp [failedEvent, startedEvent, c5Inp]

/-- C5 amended: when the reasoning service answers `can_heal` but zero
proposed mappings survive the confidence filter, the engine emits a
terminal failure thought and returns no mapping with nothing cached, but
— unlike the `can_heal`-false and re-validation-failure paths — records
no `healing_failed` event: the invocation's only event is
`healing_started`. -/
theorem zero_survivors_behaviour (cfg : HealerConfig) (inp : HealInput)
    (hres : HealingResult) (outcome : ApprovalOutcome) (s : StreamState)
    (hch : hres.can_heal = true)
    (hempty : survivingMappings cfg.healing_confidence_threshold
      hres.field_mappings = []) :
    (analyze_and_heal cfg inp (some hres) outcome s).result = none ∧
    (analyze_and_heal cfg inp (some hres) outcome s).cached = [] ∧
    (analyze_and_heal cfg inp (some hres) outcome s).events =
      [startedEvent inp.endpoint] ∧
    (∃ t, (analyze_and_heal cfg inp (some hres) outcome s).stream.history.getLast?
        = some t ∧ t.type = .failure ∧
        t.message = "No valid mappings could be generated") := by
  simp only [analyze_and_heal, hch, if_true, survivorsStage,
    processProposals_fst, List.nil_append]
  rw [if_pos (by rw [hempty]; rfl)]
  refine ⟨rfl, rfl, rfl, ?_⟩
  simp only [StreamState.emitPlain, StreamState.emitCore]
  exact ⟨_, getLast?_pushHistory _ _, rfl, rfl⟩

theorem zero_survivors_behaviour_witness :
    (analyze_and_heal defaultHealerConfig c5Inp (some c5Hres)
        .timeout {}).events = [startedEvent "/api/users"] := by
  have hempty : survivingMappings defaultHealerConfig.healing_confidence_threshold
      c5Hres.field_mappings = [] := by
    norm_num [survivingMappings, c5Hres, defaultHealerConfig, List.filter]
  have h := zero_survivors_behaviour defaultHealerConfig c5Inp c5Hres
    .timeout {} rfl hempty
  simpa [c5Inp] using h.2.2.1

/-- C6: the approval-requiring emission resolves either by an external
`approve_pending` answer (returning that verdict) or by the 60-second
timeout, in which case it returns `True` (proceed as approved) and a
failure-type thought noting the timeout is emitted as the newest history
entry. -/
theorem approval_emit_timeout_behaviour (s : StreamState) (ty : ThoughtType)
    (msg : String) (conf : Option Rat) :
    approvalTimeoutSeconds = 60 ∧
    (s.emitApproval ty msg conf .timeout).1 = true ∧
    (∃ t, (s.emitApproval ty msg conf .timeout).2.history.getLast? = some t ∧
      t.type = .failure ∧
      t.message = "Approval timeout - proceeding with caution") ∧
    (∀ b, (s.emitApproval ty msg conf (.external b)).1 = b) := by
  refine ⟨rfl, rfl, ?_, fun b => ?_⟩
  · simp only [StreamState.emitApproval, StreamState.emitPlain,
      StreamState.emitCore]
    exact ⟨_, getLast?_pushHistory _ _, rfl, rfl⟩
  · simp [StreamState.emitApproval, StreamState.approve_pending,
      StreamState.emitPlain, StreamState.emitCore]

/-- C7: with approval mode on and a triggered gate, any external
`approve_pending` call before the timeout — with either verdict — makes
the invocation terminate with no mapping and nothing persisted (the
engine's follow-up `approve_pending(True)` finds the slot cleared and
treats the `False` as rejection); only the timeout path goes on to
construct, and (when re-validation passes) persist, the mapping. -/
theorem external_approval_rejects (cfg : HealerConfig) (inp : HealInput)
    (hres : HealingResult) (s : StreamState)
    (hch : hres.can_heal = true)
    (hsurv : survivingMappings cfg.healing_confidence_threshold hres.field_mappings ≠ [])
    (hreq : cfg.require_approval_for_low_confidence = true)
    (hlow : minConfidence hres.field_mappings < cfg.confidence_threshold_for_approval) :
    (∀ b, (analyze_and_heal cfg inp (some hres) (.external b) s).result = none ∧
      (analyze_and_heal cfg inp (some hres) (.external b) s).cached = []) ∧
    (inp.validate (apply_mapping inp.actual (builtMapping cfg inp
        (survivingMappings cfg.healing_confidence_threshold hres.field_mappings))) = true →
      (analyze_and_heal cfg inp (some hres) .timeout s).result =
        some (builtMapping cfg inp
          (survivingMappings cfg.healing_confidence_threshold hres.field_mappings)) ∧
      (analyze_and_heal cfg inp (some hres) .timeout s).cached =
        [(inp.endpoint, builtMapping cfg inp
          (survivingMappings cfg.healing_confidence_threshold hres.field_mappings))]) := by
  constructor
  · intro b
    obtain ⟨h₁, h₂, -⟩ :=
      analyze_gate_external cfg inp hres b s hch hsurv hreq hlow
    exact ⟨h₁, h₂⟩
  · intro hval
    obtain ⟨s', heq⟩ := analyze_gate_timeout cfg inp hres s hch hsurv hreq hlow
    rw [heq]
    obtain ⟨h₁, h₂, -⟩ := finishHealing_of_valid cfg inp _ _ _ s' hval
    exact ⟨h₁, h₂⟩

def c7Cfg : HealerConfig :=
  { defaultHealerConfig with require_approval_for_low_confidence := true }

def c7Inp : HealInput :=
  { endpoint := "/api/users", validate := fun _ => true,
    actual := [("uid", .vint 1)] }

def c7Hres : HealingResult :=
  { field_mappings :=
      [{ source_field := "uid", target_field := "user_id", confidence := 0.9 },
       { source_field := "x", target_field := "y", confidence := 0.5 }],
    analysis := "rename", can_heal := true }

theorem external_approval_rejects_witness :
    (analyze_and_heal c7Cfg c7Inp (some c7Hres) (.external true) {}).result
      = none ∧
    (analyze_and_heal c7Cfg c7Inp (some c7Hres) .timeout {}).result =
      some (builtMapping c7Cfg c7Inp
        (survivingMappings c7Cfg.healing_confidence_threshold
          c7Hres.field_mappings)) := by
  have hsurv : survivingMappings c7Cfg.healing_confidence_threshold
      c7Hres.field_mappings ≠ [] := by
    norm_num [survivingMappings, c7Hres, c7Cfg, defaultHealerConfig, List.filter]
  have hlow : minConfidence c7Hres.field_mappings <
      c7Cfg.confidence_threshold_for_approval := by
    norm_num [minConfidence, c7Hres, c7Cfg, defaultHealerConfig]
  have h := external_approval_rejects c7Cfg c7Inp c7Hres {} rfl hsurv rfl hlow
  exact ⟨(h.1 true).1, (h.2 rfl).1⟩

/-- C8: every cache operation against a not-connected client or an
unreachable backing store degrades without raising: `get_mapping` returns
`none`, `set_mapping` reports `False`, and the Gateway's cache stage
treats the unreachable-store answer identically to a genuine cache
miss. -/
theorem cache_failure_degrades_to_miss (be : Backend) (endpoint : String)
    (m : SchemaMapping) (status : Nat) (rd : Obj) (valid autoHeal : Bool)
    (engine : Option SchemaMapping) :
    get_mapping ⟨false⟩ be endpoint = none ∧
    get_mapping ⟨true⟩ .unreachable endpoint = none ∧
    set_mapping ⟨false⟩ be endpoint m = false ∧
    set_mapping ⟨true⟩ .unreachable endpoint m = false ∧
    handleCacheStage status rd (get_mapping ⟨true⟩ .unreachable endpoint)
        valid autoHeal engine =
      handleCacheStage status rd none valid autoHeal engine ∧
    handleCacheStage status rd (get_mapping ⟨false⟩ be endpoint)
        valid autoHeal engine =
      handleCacheStage status rd (get_mapping ⟨true⟩ (.store []) endpoint)
        valid autoHeal engine :=
  ⟨rfl, rfl, rfl, rfl, rfl, rfl⟩

/-- C9: the statistics window's `success_rate` is 0 when the window holds
no `healing_started` event, and otherwise is 100 times the
`healing_success` count divided by the `healing_started` count, rounded
to two decimals. -/
theorem success_rate_formula (hours : Nat) (events : List HealingEventType) :
    (events.count .healing_started = 0 →
      (get_healing_stats hours events).success_rate = 0) ∧
    (0 < events.count .healing_started →
      (get_healing_stats hours events).success_rate =
        pyRound2 (100 * (events.count .healing_success : Rat) /
          (events.count .healing_started : Rat))) := by
  constructor
  · intro h
    simp [get_healing_stats, lookupCount_groupCounts, h]
  · intro h
    simp only [get_healing_stats, lookupCount_groupCounts]
    rw [if_pos h]
    congr 1
    ring

def c9Events : List HealingEventType :=
  [.healing_started, .healing_started, .healing_started,
   .healing_success, .healing_success]

theorem success_rate_formula_witness :
    (get_healing_stats 24 c9Events).success_rate = 66.67 := by
  have hc : c9Events.count HealingEventType.healing_started = 3 := by decide
  have h := (success_rate_formula 24 c9Events).2 (by rw [hc]; decide)
  rw [h]
  have hcs : c9Events.count HealingEventType.healing_success = 2 := by decide
  rw [hc, hcs]
  have hfloor : Int.floor ((100 * (2 : Rat) / 3) * 100) = 6666 := by
    norm_num [Int.floor_eq_iff]
  simp only [pyRound2, roundHalfEven, hfloor]
  norm_num

end SelfHealing
